import Mathlib

/-!
Verification of the real-time voice session engine.

This file gives a shallow embedding of the core components of the voice
session engine (the ElevenLabs bridge, the outbound audio buffer, the
duration watchdog, the streaming-transcript consolidation state machine of
the AssemblyAI STT service, and the energy-based voice-activity gate) and
proves or refutes the specified properties about them.

Sources embedded:
- backend/app/services/elevenlabs_service.py
  (ElevenLabsVoiceHandler.queue_pcm / flush / _send_chunk,
   JitsiElevenLabsBridge.start_conversation)
- backend/app/services/voice_endpoint.py
  (IntegratedVoiceSession.process_audio VAD gating, _is_speech,
   _monitor_interview_duration, _end_interview)
- backend/app/services/stt/assemblyai_stt.py
  (_receive_loop Turn handling, _timeout_checker_loop)
- backend/app/core/config.py (Settings defaults)
-/

namespace VoiceCore

/-! ## OutboundAudioBuffer: ElevenLabsVoiceHandler.queue_pcm / flush

State of the outgoing-audio buffering in ElevenLabsVoiceHandler.
Bytes are modelled as natural numbers below 256; times as rationals
(seconds).  Field names follow the Python attributes is_connected,
_conversation_ready, _pending_audio_before_ready, _pcm_buffer,
_last_flush. -/

structure BufState where
  is_connected : Bool
  conversation_ready : Bool
  pending_before_ready : List (List Nat)
  pcm_buffer : List Nat
  last_flush : ℚ
deriving Repr, DecidableEq

/-- Settings.AUDIO_FLUSH_BYTES default (config.py). -/
def AUDIO_FLUSH_BYTES : ℕ := 3200

/-- Settings.AUDIO_FLUSH_INTERVAL default, in seconds (config.py). -/
def AUDIO_FLUSH_INTERVAL : ℚ := 1/2

/-- ElevenLabsVoiceHandler.flush: no-op when the buffer is empty, otherwise
send the whole accumulated buffer downstream as one unit, clear it and reset
the clock.  Returns the state and the chunk sent downstream, if any. -/
def flush (st : BufState) (now : ℚ) : BufState × Option (List Nat) :=
  if st.pcm_buffer = [] then (st, none)
  else ({ st with pcm_buffer := [], last_flush := now }, some st.pcm_buffer)

/-- ElevenLabsVoiceHandler.queue_pcm: drop when not connected or empty;
retain in the bounded pre-ready ring while the conversation is not ready;
otherwise accumulate and flush when the buffer reaches AUDIO_FLUSH_BYTES or
more than AUDIO_FLUSH_INTERVAL elapsed since the last flush. -/
def queue_pcm (st : BufState) (pcm16 : List Nat) (now : ℚ) :
    BufState × Option (List Nat) :=
  if ¬ st.is_connected ∨ pcm16 = [] then (st, none)
  else if ¬ st.conversation_ready then
    let l := st.pending_before_ready ++ [pcm16]
    ({ st with pending_before_ready := if 10 < l.length then l.drop 1 else l },
     none)
  else
    let st1 := { st with pcm_buffer := st.pcm_buffer ++ pcm16 }
    if AUDIO_FLUSH_BYTES ≤ st1.pcm_buffer.length
        ∨ AUDIO_FLUSH_INTERVAL < now - st.last_flush then
      flush st1 now
    else (st1, none)

/-! ## ProviderBridge payload-format negotiation: _send_chunk -/

/-- Indices of the payload format variants list in
ElevenLabsVoiceHandler._send_chunk (four variants, probed in order). -/
def payloadVariants : List ℕ := [0, 1, 2, 3]

/-- The probing loop of _send_chunk: try each format in order until one is
accepted; returns the cached winner (if any) and the list of attempted
indices. -/
def probeFormats (accept : ℕ → Bool) : List ℕ → Option ℕ × List ℕ
  | [] => (none, [])
  | j :: rest =>
    if accept j then (some j, [j])
    else
      let r := probeFormats accept rest
      (r.1, j :: r.2)

/-- ElevenLabsVoiceHandler._send_chunk, abstracted over which sends the
socket accepts: with a cached successful format, try it first and keep it on
success; on failure clear the cache and probe all formats in order, caching
the first accepted one.  Returns the new cache and the attempted indices in
order. -/
def send_chunk (cache : Option ℕ) (accept : ℕ → Bool) : Option ℕ × List ℕ :=
  match cache with
  | some i =>
    if accept i then (some i, [i])
    else
      let r := probeFormats accept payloadVariants
      (r.1, i :: r.2)
  | none => probeFormats accept payloadVariants

/-! ## JitsiElevenLabsBridge.start_conversation -/

/-- The _started flag of JitsiElevenLabsBridge. -/
structure BridgeState where
  started : Bool
deriving Repr, DecidableEq

/-- JitsiElevenLabsBridge.start_conversation: invoke the handler's start
operation only when not yet started.  handlerStart is the result the
handler's own start_conversation would return.  Returns the new state, the
return value, and whether the handler operation was invoked. -/
def start_conversation (st : BridgeState) (handlerStart : Bool) :
    BridgeState × Bool × Bool :=
  if st.started then (st, st.started, false)
  else ({ started := handlerStart }, handlerStart, true)

/-- Number of handler start_conversation invocations over a sequence of
triggers (each list entry is the handler result for that trigger, were it
invoked). -/
def startTriggerCount (st : BridgeState) : List Bool → ℕ
  | [] => 0
  | ok :: rest =>
    let r := start_conversation st ok
    (if r.2.2 then 1 else 0) + startTriggerCount r.1 rest

/-! ## Duration watchdog: _monitor_interview_duration -/

/-- Events the duration watchdog emits to the client. -/
inductive WatchdogEvent where
  | warning (remaining : ℚ)
  | ended (reason : String) (elapsed : ℚ)
deriving Repr, DecidableEq

/-- max_seconds computed from _max_interview_minutes. -/
def maxSecondsOf (maxMinutes : ℕ) : ℚ := maxMinutes * 60

/-- One pass of the _monitor_interview_duration loop body per periodic
check, given the elapsed times observed at each check: warn whenever
0 < remaining ≤ 60, and force-end with reason time_limit_reached (stopping
the loop) as soon as elapsed ≥ max_seconds. -/
def monitorChecks (maxSeconds : ℚ) : List ℚ → List WatchdogEvent
  | [] => []
  | elapsed :: rest =>
    let remaining := maxSeconds - elapsed
    let warn : List WatchdogEvent :=
      if 0 < remaining ∧ remaining ≤ 60 then [.warning remaining] else []
    if maxSeconds ≤ elapsed then warn ++ [.ended "time_limit_reached" elapsed]
    else warn ++ monitorChecks maxSeconds rest

/-- Counts the warning events in a watchdog event list. -/
def countWarnings (l : List WatchdogEvent) : ℕ :=
  l.countP (fun e => match e with | .warning _ => true | _ => false)

/-! ## Theorems: payload-format caching (C6) -/

theorem probeFormats_eq (accept : ℕ → Bool) (l : List ℕ) :
    probeFormats accept l =
      (l.find? accept,
       l.takeWhile (fun j => ! accept j) ++ (l.find? accept).toList) := by
  induction l with
  | nil => simp [probeFormats]
  | cons j rest ih =>
    by_cases h : accept j
    · simp [probeFormats, h]
    · simp [probeFormats, h, ih]

/-- Claim C6: after a successful send cached format index i, the next send
attempts index i first and keeps the cache on success; if the cached format
fails, the bridge probes all payload formats in order from index 0 (so the
attempt list is i followed by the prefix of formats up to and including the
first accepted one) and caches the first format that succeeds as the new
winner. -/
theorem send_chunk_cached_format (i : ℕ) (accept : ℕ → Bool) :
    (send_chunk (some i) accept).2.head? = some i
    ∧ (accept i = true → send_chunk (some i) accept = (some i, [i]))
    ∧ (accept i = false →
        (send_chunk (some i) accept).2 =
          i :: (payloadVariants.takeWhile (fun j => ! accept j)
                  ++ (payloadVariants.find? accept).toList)
        ∧ (send_chunk (some i) accept).1 = payloadVariants.find? accept) := by
  refine ⟨?_, ?_, ?_⟩
  · by_cases h : accept i <;> simp [send_chunk, h, probeFormats_eq]
  · intro h
    simp [send_chunk, h]
  · intro h
    simp [send_chunk, h, probeFormats_eq]

/-- Witness for C6 at cached index 2 with only format 1 accepted: the send
attempts 2 first, then probes 0 and 1, and caches 1. -/
theorem send_chunk_cached_format_witness :
    (send_chunk (some 2) (fun j => j == 1)).2 = [2, 0, 1]
    ∧ (send_chunk (some 2) (fun j => j == 1)).1 = some 1 := by
  have h := (send_chunk_cached_format 2 (fun j => j == 1)).2.2 (by decide)
  exact ⟨by rw [h.1]; rfl, by rw [h.2]; rfl⟩

/-! ## Theorems: buffer flush triggers (C7) -/

/-- Claim C7: queue_pcm (when connected, ready, with nonempty input) flushes
exactly when the accumulated size reaches AUDIO_FLUSH_BYTES or the elapsed
time since the last flush exceeds AUDIO_FLUSH_INTERVAL; a flush sends the
whole accumulated buffer as one unit and resets the clock, otherwise the
bytes stay accumulated and the clock is untouched; and flush is a no-op on
an empty buffer. -/
theorem queue_pcm_flush_triggers (st : BufState) (pcm16 : List Nat) (now : ℚ)
    (hconn : st.is_connected = true) (hready : st.conversation_ready = true)
    (hne : pcm16 ≠ []) :
    ((queue_pcm st pcm16 now).2.isSome ↔
      (AUDIO_FLUSH_BYTES ≤ st.pcm_buffer.length + pcm16.length
        ∨ AUDIO_FLUSH_INTERVAL < now - st.last_flush))
    ∧ (∀ u, (queue_pcm st pcm16 now).2 = some u →
        u = st.pcm_buffer ++ pcm16
        ∧ (queue_pcm st pcm16 now).1.pcm_buffer = []
        ∧ (queue_pcm st pcm16 now).1.last_flush = now)
    ∧ ((queue_pcm st pcm16 now).2 = none →
        (queue_pcm st pcm16 now).1.pcm_buffer = st.pcm_buffer ++ pcm16
        ∧ (queue_pcm st pcm16 now).1.last_flush = st.last_flush)
    ∧ (∀ s : BufState, s.pcm_buffer = [] → flush s now = (s, none)) := by
  have hbuf : ¬ (st.pcm_buffer ++ pcm16 = []) := by
    simp only [List.append_eq_nil]
    exact fun h => hne h.2
  have hmain : queue_pcm st pcm16 now =
      if AUDIO_FLUSH_BYTES ≤ st.pcm_buffer.length + pcm16.length
          ∨ AUDIO_FLUSH_INTERVAL < now - st.last_flush
      then ({ st with pcm_buffer := [], last_flush := now },
            some (st.pcm_buffer ++ pcm16))
      else ({ st with pcm_buffer := st.pcm_buffer ++ pcm16 }, none) := by
    simp only [queue_pcm]
    rw [if_neg (by simp [hconn, hne]), if_neg (by simp [hready])]
    simp only [List.length_append]
    split_ifs with h
    · rw [flush, if_neg hbuf]
    · rfl
  refine ⟨?_, ?_, ?_, ?_⟩
  · rw [hmain]
    split_ifs with h <;> simp [h]
  · intro u hu
    by_cases h : AUDIO_FLUSH_BYTES ≤ st.pcm_buffer.length + pcm16.length
        ∨ AUDIO_FLUSH_INTERVAL < now - st.last_flush
    · rw [hmain, if_pos h] at hu
      rw [hmain, if_pos h]
      injection hu with hu
      exact ⟨hu.symm, rfl, rfl⟩
    · rw [hmain, if_neg h] at hu
      exact absurd hu (by simp)
  · intro hu
    by_cases h : AUDIO_FLUSH_BYTES ≤ st.pcm_buffer.length + pcm16.length
        ∨ AUDIO_FLUSH_INTERVAL < now - st.last_flush
    · rw [hmain, if_pos h] at hu
      exact absurd hu (by simp)
    · rw [hmain, if_neg h]
      exact ⟨rfl, rfl⟩
  · intro s hs
    simp [flush, hs]

/-- Witness for C7 exercising the empty-buffer no-op through the theorem at
a concrete state. -/
theorem queue_pcm_flush_triggers_witness :
    flush ⟨true, true, [], [], 3⟩ 7 = (⟨true, true, [], [], 3⟩, none) :=
  (queue_pcm_flush_triggers ⟨true, true, [], [], 0⟩ [1, 2] 1 rfl rfl
    (by decide)).2.2.2 ⟨true, true, [], [], 3⟩ rfl

/-! ## Theorems: single engagement (C5) -/

/-- Claim C5: once the bridge has started, start_conversation is a no-op
that invokes the handler's start operation zero further times; a trigger
sequence whose first trigger succeeds invokes the handler exactly once no
matter how many triggers follow. -/
theorem start_conversation_idempotent (oks : List Bool) (ok : Bool) :
    start_conversation ⟨true⟩ ok = (⟨true⟩, true, false)
    ∧ startTriggerCount ⟨true⟩ oks = 0
    ∧ startTriggerCount ⟨false⟩ (true :: oks) = 1 := by
  have hzero : ∀ l : List Bool, startTriggerCount ⟨true⟩ l = 0 := by
    intro l
    induction l with
    | nil => rfl
    | cons a l ih => simpa [startTriggerCount, start_conversation] using ih
  refine ⟨rfl, hzero oks, ?_⟩
  simp [startTriggerCount, start_conversation, hzero]

/-! ## Theorems: duration watchdog (C3) -/

/-- Counterexample to C3 as stated: with max_interview_minutes = 5 and the
10-second periodic checks of _monitor_interview_duration, the warning fires
at every check whose elapsed time lies in the final 60-second window, six
times in total over a straight run, not exactly once. -/
theorem monitor_warning_fires_repeatedly :
    countWarnings (monitorChecks (maxSecondsOf 5)
      [10, 20, 30, 40, 50, 60, 70, 80, 90, 100, 110, 120, 130, 140, 150,
       160, 170, 180, 190, 200, 210, 220, 230, 240, 250, 260, 270, 280,
       290, 300]) = 6 ∧ (6 : ℕ) ≠ 1 := by
  constructor
  · norm_num [countWarnings, monitorChecks, maxSecondsOf, List.countP_cons]
  · decide

theorem mem_monitorChecks (maxSeconds : ℚ) (checks : List ℚ)
    (ev : WatchdogEvent) (h : ev ∈ monitorChecks maxSeconds checks) :
    (∃ e, e ∈ checks ∧ ev = .warning (maxSeconds - e)
        ∧ 0 < maxSeconds - e ∧ maxSeconds - e ≤ 60)
    ∨ (∃ e, e ∈ checks ∧ ev = .ended "time_limit_reached" e
        ∧ maxSeconds ≤ e) := by
  induction checks with
  | nil => simp [monitorChecks] at h
  | cons e rest ih =>
    simp only [monitorChecks] at h
    split_ifs at h with hend hw hw
    · simp only [List.mem_append, List.mem_singleton] at h
      rcases h with h | h
      · exact Or.inl ⟨e, List.mem_cons_self e rest, h, hw⟩
      · exact Or.inr ⟨e, List.mem_cons_self e rest, h, hend⟩
    · simp only [List.nil_append, List.mem_singleton] at h
      exact Or.inr ⟨e, List.mem_cons_self e rest, h, hend⟩
    · simp only [List.mem_append, List.mem_singleton] at h
      rcases h with h | h
      · exact Or.inl ⟨e, List.mem_cons_self e rest, h, hw⟩
      · rcases ih h with ⟨c, hc, hrest⟩ | ⟨c, hc, hrest⟩
        · exact Or.inl ⟨c, List.mem_cons_of_mem e hc, hrest⟩
        · exact Or.inr ⟨c, List.mem_cons_of_mem e hc, hrest⟩
    · simp only [List.nil_append] at h
      rcases ih h with ⟨c, hc, hrest⟩ | ⟨c, hc, hrest⟩
      · exact Or.inl ⟨c, List.mem_cons_of_mem e hc, hrest⟩
      · exact Or.inr ⟨c, List.mem_cons_of_mem e hc, hrest⟩

/-- Claim C3 (amended): over any sequence of periodic checks with
max_interview_minutes = 5, every warning the watchdog emits carries a
remaining time in (0, 60] (so warnings repeat at every check inside the
grace window rather than firing exactly once), a single check at elapsed
time e warns exactly when 240 ≤ e < 300, and the session is force-ended
with reason time_limit_reached only at a check whose elapsed time is at
least 300 seconds, never before. -/
theorem monitor_duration_spec (checks : List ℚ) :
    (∀ r, WatchdogEvent.warning r ∈ monitorChecks (maxSecondsOf 5) checks →
        0 < r ∧ r ≤ 60)
    ∧ (∀ reason e,
        WatchdogEvent.ended reason e ∈ monitorChecks (maxSecondsOf 5) checks →
        reason = "time_limit_reached" ∧ 300 ≤ e)
    ∧ (∀ e : ℚ,
        WatchdogEvent.warning (maxSecondsOf 5 - e) ∈
            monitorChecks (maxSecondsOf 5) [e]
          ↔ 240 ≤ e ∧ e < 300) := by
  have hms : maxSecondsOf 5 = 300 := by
    simp [maxSecondsOf]
    norm_num
  refine ⟨?_, ?_, fun e => ?_⟩
  · intro r h
    rcases mem_monitorChecks _ _ _ h with ⟨c, _, hev, h1, h2⟩ | ⟨c, _, hev, _⟩
    · injection hev with hev
      subst hev
      exact ⟨h1, h2⟩
    · cases hev
  · intro reason e h
    rcases mem_monitorChecks _ _ _ h with ⟨c, _, hev, _, _⟩ | ⟨c, _, hev, hge⟩
    · cases hev
    · injection hev with hr he
      subst hr
      subst he
      rw [hms] at hge
      exact ⟨rfl, hge⟩
  · rw [hms]
    simp only [monitorChecks]
    constructor
    · intro h
      split_ifs at h with hend hw hw
      · constructor <;> linarith [hw.1, hw.2]
      · simp at h
      · constructor <;> linarith [hw.1, hw.2]
      · simp at h
    · intro ⟨h1, h2⟩
      rw [if_neg (by linarith : ¬ (300 : ℚ) ≤ e),
        if_pos ⟨by linarith, by linarith⟩]
      exact List.mem_append_left _ (List.mem_singleton.mpr rfl)

/-- Witness for C3 (amended) at a single concrete check: a check at elapsed
250 s emits a warning with 50 s remaining, whose bounds follow from the
theorem. -/
theorem monitor_duration_spec_witness :
    0 < (50 : ℚ) ∧ (50 : ℚ) ≤ 60 :=
  (monitor_duration_spec [250]).1 50
    (by norm_num [monitorChecks, maxSecondsOf])

/-! ## StreamingTranscriptEngine: assemblyai_stt.py

Python string primitives used by the transcript logic, embedded
structurally over the character list of a String: str.strip() (pyStrip),
str.lower() (pyLower, ASCII case folding as in Char.toLower), and
len(str.split()) (wordCount, splitting on whitespace runs and discarding
empties, as Python's argumentless split does). -/

/-- Python str.lower(). -/
def pyLower (s : String) : String := ⟨s.data.map Char.toLower⟩

/-- Python str.strip(). -/
def pyStrip (s : String) : String :=
  ⟨((s.data.dropWhile Char.isWhitespace).reverse.dropWhile
      Char.isWhitespace).reverse⟩

/-- Helper for wordCount: accumulate maximal non-whitespace runs. -/
def wordsAux : List Char → List Char → List String
  | [], acc => if acc = [] then [] else [⟨acc.reverse⟩]
  | c :: rest, acc =>
    if c.isWhitespace then
      if acc = [] then wordsAux rest [] else ⟨acc.reverse⟩ :: wordsAux rest []
    else wordsAux rest (c :: acc)

/-- Python len(s.split()): number of whitespace-separated words. -/
def wordCount (s : String) : ℕ := (wordsAux s.data []).length

/-- Model of time (seconds since epoch), as in time.time(). -/
abbrev Time := ℚ

/-- One Turn message from the recognizer (assemblyai_stt._receive_loop):
utterance text, transcript text and the end_of_turn flag. -/
structure TurnEvent where
  utterance : String
  transcript : String
  end_of_turn : Bool
deriving Repr, DecidableEq

/-- final_text = utterance if utterance else text. -/
def finalTextOf (e : TurnEvent) : String :=
  if e.utterance ≠ "" then e.utterance else e.transcript

/-- Per-session transcript-consolidation state of AssemblyAISTTService:
_last_sent_transcript, _has_sent_any_transcript, and the pair
(_pending_transcript, _pending_transcript_time), which the code always sets
and clears together. -/
structure STTState where
  last_sent_transcript : String
  has_sent_any_transcript : Bool
  pending_transcript : Option (String × Time)
deriving Repr, DecidableEq

/-- State right after the Begin message resets the tracking fields. -/
def initialSTTState : STTState := ⟨"", false, none⟩

/-- _pending_timeout_seconds = 0.7. -/
def pending_timeout_seconds : Time := 7/10

/-- _substantial_word_threshold = 1. -/
def substantial_word_threshold : ℕ := 1

/-- The guarded read of the pending transcript shared by the inline check
of _receive_loop and by _timeout_checker_loop: the held text, when a
pending transcript exists and its age reached the fallback timeout. -/
def timeoutGrab (s : STTState) (now : Time) : Option String :=
  match s.pending_transcript with
  | some (p, t0) =>
    if pending_timeout_seconds ≤ now - t0 then some p else none
  | none => none

/-- The pending-transcript tracking block of _receive_loop (executed when
nothing is being sent): store the normalized text as the new pending
transcript, resetting its timer, when it is substantial and either no
pending exists, or it differs case-insensitively from the pending text, or
it has strictly more words. -/
def trackPending (s : STTState) (normalized_text : String) (word_count : ℕ)
    (end_of_turn : Bool) (now : Time) : STTState :=
  if ¬ end_of_turn ∧ substantial_word_threshold ≤ word_count then
    match s.pending_transcript with
    | none => { s with pending_transcript := some (normalized_text, now) }
    | some (p, _) =>
      if pyLower normalized_text ≠ pyLower p ∨ wordCount p < word_count then
        { s with pending_transcript := some (normalized_text, now) }
      else s
  else s

/-- The emission-decision chain of _receive_loop after the inline timeout
check found nothing: end_of_turn, first-transcript, utterance-instant and
transcript-instant paths, falling back to pending tracking.  Returns the
mutated state and the text to send, if any (the post-send updates happen
separately in emitUpdate, as they do after the awaited callback in the
code). -/
def receiveTurnChain (s : STTState) (e : TurnEvent) (now : Time) :
    STTState × Option String :=
  let normalized_text := pyStrip (finalTextOf e)
  let normalized_last :=
    if s.last_sent_transcript ≠ "" then pyStrip s.last_sent_transcript else ""
  let is_duplicate : Bool :=
    if normalized_last ≠ "" then pyLower normalized_text == pyLower normalized_last
    else false
  let word_count := wordCount normalized_text
  if e.end_of_turn then
    if is_duplicate then (trackPending s normalized_text word_count true now, none)
    else ({ s with pending_transcript := none }, some normalized_text)
  else if ¬ s.has_sent_any_transcript then
    if normalized_text ≠ "" then (s, some normalized_text)
    else (trackPending s normalized_text word_count false now, none)
  else if e.utterance ≠ "" then
    let utterance_normalized := pyStrip e.utterance
    let is_utterance_new : Bool :=
      if normalized_last ≠ "" then pyLower utterance_normalized != pyLower normalized_last
      else true
    if is_utterance_new ∧ 1 ≤ word_count then
      ({ s with pending_transcript := none }, some normalized_text)
    else (trackPending s normalized_text word_count false now, none)
  else if ¬ is_duplicate ∧ substantial_word_threshold ≤ word_count then
    ({ s with pending_transcript := none }, some normalized_text)
  else (trackPending s normalized_text word_count false now, none)

/-- The synchronous decision part of one Turn message in _receive_loop:
nothing happens on empty final text; otherwise the inline timeout fallback
grabs and clears the pending transcript (clear before emit), else the
decision chain runs. -/
def receiveTurnDecide (s : STTState) (e : TurnEvent) (now : Time) :
    STTState × Option String :=
  if finalTextOf e = "" then (s, none)
  else
    match timeoutGrab s now with
    | some p => ({ s with pending_transcript := none }, some p)
    | none => receiveTurnChain s e now

/-- The post-send updates of _receive_loop (after the awaited callback):
mark sent, remember the last sent text, clear pending. -/
def emitUpdate (s : STTState) (text : String) : STTState :=
  { s with last_sent_transcript := text, has_sent_any_transcript := true,
           pending_transcript := none }

/-- The post-send updates of _timeout_checker_loop (after the awaited
callback): mark sent and remember the last sent text (the pending fields
were already cleared before the callback). -/
def timeoutEmitUpdate (s : STTState) (text : String) : STTState :=
  { s with last_sent_transcript := text, has_sent_any_transcript := true }

/-- Sequential processing of one Turn message (decision plus post-send
updates), returning the new state and the emitted transcript, if any. -/
def processTurn (s : STTState) (e : TurnEvent) (now : Time) :
    STTState × Option String :=
  match receiveTurnDecide s e now with
  | (s1, some txt) => (emitUpdate s1 txt, some txt)
  | (s1, none) => (s1, none)

/-- One iteration of _timeout_checker_loop observed at time now: when a
pending transcript exists and timed out, clear it first, then emit it and
record it as last sent. -/
def timeoutTick (s : STTState) (now : Time) : STTState × Option String :=
  match timeoutGrab s now with
  | some p =>
    (timeoutEmitUpdate { s with pending_transcript := none } p, some p)
  | none => (s, none)

/-! ## Theorems: inline timeout fallback (C9) -/

theorem timeoutGrab_expired (s : STTState) (now : Time) (p : String)
    (t0 : Time) (hp : s.pending_transcript = some (p, t0))
    (ht : pending_timeout_seconds ≤ now - t0) :
    timeoutGrab s now = some p := by
  simp only [timeoutGrab, hp]
  rw [if_pos ht]

theorem receiveTurnDecide_timeout (s : STTState) (e : TurnEvent) (now : Time)
    (p : String) (t0 : Time)
    (hp : s.pending_transcript = some (p, t0))
    (ht : pending_timeout_seconds ≤ now - t0)
    (hne : finalTextOf e ≠ "") :
    receiveTurnDecide s e now =
      ({ s with pending_transcript := none }, some p) := by
  simp only [receiveTurnDecide, timeoutGrab_expired s now p t0 hp ht]
  rw [if_neg hne]

/-- Claim C9: when the inline timeout fallback of the receive loop fires (a
Turn event with nonempty text arrives while the pending transcript's age
has reached the fallback timeout), the emitted text is the stored pending
transcript and it becomes the last sent text; the arriving event's own text
is discarded: it is neither emitted nor stored as a new pending
transcript. -/
theorem inline_timeout_fallback_emits_pending (s : STTState) (e : TurnEvent)
    (now : Time) (p : String) (t0 : Time)
    (hp : s.pending_transcript = some (p, t0))
    (ht : pending_timeout_seconds ≤ now - t0)
    (hne : finalTextOf e ≠ "") :
    processTurn s e now =
      ({ last_sent_transcript := p, has_sent_any_transcript := true,
         pending_transcript := none }, some p) := by
  simp [processTurn, receiveTurnDecide_timeout s e now p t0 hp ht hne,
    emitUpdate]

/-- Witness for C9: a pending "hello world" held since time 0 is emitted,
not the arriving event text "brand new text", when the event arrives at
time 1. -/
theorem inline_timeout_fallback_emits_pending_witness :
    processTurn ⟨"prev", true, some ("hello world", 0)⟩
        ⟨"brand new text", "", true⟩ 1 =
      (⟨"hello world", true, none⟩, some "hello world") :=
  inline_timeout_fallback_emits_pending _ _ _ _ _ rfl
    (by norm_num [pending_timeout_seconds]) (by decide)

/-! ## Theorems: pending transcript monotonic-or-replaced (C8) -/

theorem trackPending_shrink (s : STTState) (txt : String) (b : Bool)
    (now : Time) (p q : String) (t0 t1 : Time)
    (hp : s.pending_transcript = some (p, t0))
    (hq : (trackPending s txt (wordCount txt) b now).pending_transcript
        = some (q, t1))
    (hlt : wordCount q < wordCount p) :
    pyLower q ≠ pyLower p := by
  simp only [trackPending] at hq
  split_ifs at hq with hcond
  · simp only [hp] at hq
    split_ifs at hq with hnew
    · simp only [STTState.pending_transcript, Option.some.injEq,
        Prod.mk.injEq] at hq
      obtain ⟨rfl, rfl⟩ := hq
      rcases hnew with hnew | hnew
      · exact hnew
      · exact absurd hlt (by omega)
    · rw [hp] at hq
      simp only [Option.some.injEq, Prod.mk.injEq] at hq
      obtain ⟨rfl, rfl⟩ := hq
      exact absurd hlt (by omega)
  · rw [hp] at hq
    simp only [Option.some.injEq, Prod.mk.injEq] at hq
    obtain ⟨rfl, rfl⟩ := hq
    exact absurd hlt (by omega)

set_option maxHeartbeats 1000000 in
theorem receiveTurnChain_no_send_state (s : STTState) (e : TurnEvent)
    (now : Time) (s1 : STTState)
    (hr : receiveTurnChain s e now = (s1, none)) :
    ∃ b, s1 = trackPending s (pyStrip (finalTextOf e))
      (wordCount (pyStrip (finalTextOf e))) b now := by
  simp only [receiveTurnChain] at hr
  split_ifs at hr
  all_goals injection hr with h1 h2
  all_goals first
    | exact ⟨true, h1.symm⟩
    | exact ⟨false, h1.symm⟩
    | cases h2

/-- Claim C8: a stored PendingTranscript (at most one exists per session,
as the single Option-valued field of STTState) is never overwritten by a
value with strictly fewer words unless that value's case-insensitive text
differs from the stored text: processing any Turn event either keeps the
pending value, clears it, or replaces it by a new one, and a replacement
with a smaller word count always carries different case-folded text. -/
theorem pending_monotonic_or_replaced (s : STTState) (e : TurnEvent)
    (now : Time) (p q : String) (t0 t1 : Time)
    (hp : s.pending_transcript = some (p, t0))
    (hq : (processTurn s e now).1.pending_transcript = some (q, t1))
    (hlt : wordCount q < wordCount p) :
    pyLower q ≠ pyLower p := by
  rcases hr : receiveTurnDecide s e now with ⟨s1, o⟩
  cases o with
  | some txt =>
    have hpt : processTurn s e now = (emitUpdate s1 txt, some txt) := by
      simp [processTurn, hr]
    rw [hpt] at hq
    simp [emitUpdate] at hq
  | none =>
    have hpt : processTurn s e now = (s1, none) := by
      simp [processTurn, hr]
    rw [hpt] at hq
    rw [receiveTurnDecide] at hr
    split_ifs at hr with hne
    · injection hr with h1 h2
      subst h1
      rw [hp] at hq
      simp only [Option.some.injEq, Prod.mk.injEq] at hq
      obtain ⟨rfl, rfl⟩ := hq
      exact absurd hlt (by omega)
    · cases hg : timeoutGrab s now with
      | some pp =>
        rw [hg] at hr
        injection hr with h1 h2
        cases h2
      | none =>
        rw [hg] at hr
        have hr2 : receiveTurnChain s e now = (s1, none) := hr
        obtain ⟨b, hb⟩ := receiveTurnChain_no_send_state s e now s1 hr2
        rw [hb] at hq
        exact trackPending_shrink s _ b now p q t0 t1 hp hq hlt

/-- Witness for C8: a held two-word pending "alpha beta" is overwritten by
the one-word "gamma" (a duplicate of the last sent text, hence not emitted
but tracked), and indeed the case-folded texts differ. -/
theorem pending_monotonic_or_replaced_witness :
    pyLower "gamma" ≠ pyLower "alpha beta" := by
  refine pending_monotonic_or_replaced
    ⟨"gamma", true, some ("alpha beta", 0)⟩ ⟨"gamma", "", false⟩ 0
    "alpha beta" "gamma" 0 0 rfl ?_ (by decide)
  have hg : timeoutGrab ⟨"gamma", true, some ("alpha beta", 0)⟩ 0 = none := by
    simp only [timeoutGrab]
    rw [if_neg (by norm_num [pending_timeout_seconds])]
  have hd : receiveTurnDecide ⟨"gamma", true, some ("alpha beta", 0)⟩
      ⟨"gamma", "", false⟩ 0 =
      (⟨"gamma", true, some ("gamma", 0)⟩, none) := by
    simp only [receiveTurnDecide, hg]
    rw [if_neg (by decide)]
    rfl
  simp [processTurn, hd]

/-! ## Theorems: duplicate suppression (C2) -/

/-- The Utterance event of the C2 scenario: text "hello there", two words,
no end-of-turn boundary. -/
def helloEvent : TurnEvent := ⟨"hello there", "", false⟩

/-- Counterexample to C2 as stated: submitting helloEvent twice in a row
does not yield exactly one emission of "hello there".  The first event is
emitted (first-transcript path); the second, duplicate event is suppressed
on the immediate paths but is stored as a new PendingTranscript, and the
timeout checker then emits "hello there" a second time. -/
theorem duplicate_utterance_reemitted :
    processTurn initialSTTState helloEvent 0 =
      (⟨"hello there", true, none⟩, some "hello there")
    ∧ processTurn ⟨"hello there", true, none⟩ helloEvent 1 =
      (⟨"hello there", true, some ("hello there", 1)⟩, none)
    ∧ timeoutTick ⟨"hello there", true, some ("hello there", 1)⟩ 2 =
      (⟨"hello there", true, none⟩, some "hello there") := by
  refine ⟨rfl, rfl, ?_⟩
  have hg : timeoutGrab ⟨"hello there", true, some ("hello there", 1)⟩ 2 =
      some "hello there" :=
    timeoutGrab_expired _ _ _ _ rfl (by norm_num [pending_timeout_seconds])
  simp only [timeoutTick, hg]
  rfl

/-- Claim C2 (amended): submitting the same Utterance event twice in a row
yields exactly one immediate emission — the duplicate is suppressed on
every immediate emission path because suppression compares case-insensitive
whitespace-trimmed text against the last emitted text — but the duplicate
is not suppressed on the pending/timeout-fallback path: since the pending
slot was cleared by the first emission, the duplicate event is stored as a
new PendingTranscript and the timeout fallback re-emits the same text once
its age reaches the fallback timeout, unless a later event clears it. -/
theorem duplicate_utterance_tracked_then_reemitted (s : STTState)
    (e : TurnEvent) (t t' : Time)
    (hpend : s.pending_transcript = none)
    (hsent : s.has_sent_any_transcript = true)
    (hutt : e.utterance ≠ "")
    (heot : e.end_of_turn = false)
    (hlast : s.last_sent_transcript ≠ "")
    (hlastt : pyStrip s.last_sent_transcript ≠ "")
    (hdup : pyLower (pyStrip e.utterance) = pyLower (pyStrip s.last_sent_transcript))
    (hwc : 1 ≤ wordCount (pyStrip e.utterance))
    (ht : pending_timeout_seconds ≤ t' - t) :
    processTurn s e t =
      ({ s with pending_transcript := some (pyStrip e.utterance, t) }, none)
    ∧ timeoutTick
        { s with pending_transcript := some (pyStrip e.utterance, t) } t' =
      ({ s with
          last_sent_transcript := pyStrip e.utterance,
          has_sent_any_transcript := true,
          pending_transcript := none },
       some (pyStrip e.utterance)) := by
  have hft : finalTextOf e = e.utterance := by
    rw [finalTextOf, if_pos hutt]
  have hne : ¬ finalTextOf e = "" := by
    rw [hft]
    exact hutt
  have hg : timeoutGrab s t = none := by
    simp [timeoutGrab, hpend]
  have hchain : receiveTurnChain s e t =
      ({ s with pending_transcript := some (pyStrip e.utterance, t) },
       none) := by
    simp [receiveTurnChain, trackPending, hft, heot, hsent, hpend, hutt,
      hlast, hlastt, hdup, hwc, substantial_word_threshold]
  refine ⟨?_, ?_⟩
  · simp [processTurn, receiveTurnDecide, hne, hg, hchain]
  · have hg2 : timeoutGrab
        { s with pending_transcript := some (pyStrip e.utterance, t) } t' =
        some (pyStrip e.utterance) :=
      timeoutGrab_expired _ _ _ _ rfl ht
    simp [timeoutTick, hg2, timeoutEmitUpdate]

/-! ## AudioFrameGate: voice_endpoint._is_speech and the pre-start VAD of
IntegratedVoiceSession.process_audio

A frame is a list of bytes (naturals below 256).  The RMS computation of
_is_speech strides over every fourth 16-bit little-endian sample; float
arithmetic is modelled over the reals. -/

/-- Settings.VAD_THRESHOLD default = 0.002 (config.py). -/
noncomputable def VAD_THRESHOLD : ℝ := 2 / 1000

/-- Settings.VAD_MIN_RMS default = 0.008 (config.py). -/
noncomputable def VAD_MIN_RMS : ℝ := 8 / 1000

/-- Settings.VAD_PRE_START_CHUNKS default (config.py). -/
def VAD_PRE_START_CHUNKS : ℕ := 30

/-- Settings.VAD_AUTO_START_CHUNKS default (config.py). -/
def VAD_AUTO_START_CHUNKS : ℕ := 80

/-- Sign conversion of _is_speech: a 16-bit value with bit 0x8000 set is
reinterpreted as negative, val = -((~val & 0xFFFF) + 1) = val - 65536. -/
def toSigned16 (v : ℕ) : ℤ := if 32768 ≤ v then (v : ℤ) - 65536 else (v : ℤ)

/-- The i-th 16-bit little-endian sample, (hi << 8) | lo, sign-converted. -/
def frameSample (pcm16 : List ℕ) (i : ℕ) : ℤ :=
  toSigned16 ((pcm16.getD (2 * i + 1) 0 <<< 8) ||| pcm16.getD (2 * i) 0)

/-- used = limit // step of _is_speech, where sample_count = len // 2,
limit = sample_count - sample_count % 4 and step = 4. -/
def frameUsed (pcm16 : List ℕ) : ℕ :=
  (pcm16.length / 2 - pcm16.length / 2 % 4) / 4

/-- total of _is_speech: sum of val * val over the strided samples
i = 0, 4, 8, ... below limit (the k-th visited sample has index 4k). -/
def frameTotal (pcm16 : List ℕ) : ℤ :=
  ((List.range (frameUsed pcm16)).map
    (fun k => frameSample pcm16 (4 * k) * frameSample pcm16 (4 * k))).sum

/-- rms of _is_speech: sqrt(total / used) / 32768.0, with the early-return
zeros for an empty frame, zero samples or zero strided samples. -/
noncomputable def frameRms (pcm16 : List ℕ) : ℝ :=
  if pcm16 = [] then 0
  else if pcm16.length / 2 = 0 then 0
  else if frameUsed pcm16 = 0 then 0
  else Real.sqrt ((frameTotal pcm16 : ℝ) / (frameUsed pcm16 : ℝ)) / 32768

/-- The pre-start VAD accumulator of IntegratedVoiceSession:
_pre_start_chunks, _rms_accum, _rms_samples. -/
structure VADState where
  pre_start_chunks : ℕ
  rms_accum : ℝ
  rms_samples : ℕ

/-- Accumulator at session creation. -/
noncomputable def initialVADState : VADState := ⟨0, 0, 0⟩

/-- The per-frame accumulator update of process_audio before the should
start decision: increment the chunk count, add the frame's RMS, count the
sample. -/
noncomputable def vadObserve (st : VADState) (pcm16 : List ℕ) : VADState :=
  { pre_start_chunks := st.pre_start_chunks + 1,
    rms_accum := st.rms_accum + frameRms pcm16,
    rms_samples := st.rms_samples + 1 }

/-- avg_rms = _rms_accum / _rms_samples if _rms_samples else 0. -/
noncomputable def avgRms (st : VADState) : ℝ :=
  if st.rms_samples = 0 then 0 else st.rms_accum / st.rms_samples

/-- The should_start condition of process_audio, evaluated on the updated
accumulator: the frame is classified as speech (rms > VAD_THRESHOLD), or
at least VAD_PRE_START_CHUNKS frames were seen with average RMS above
VAD_MIN_RMS, or VAD_AUTO_START_CHUNKS frames were seen. -/
def shouldStartConversation (st : VADState) (pcm16 : List ℕ) : Prop :=
  VAD_THRESHOLD < frameRms pcm16
  ∨ (VAD_PRE_START_CHUNKS ≤ (vadObserve st pcm16).pre_start_chunks
      ∧ VAD_MIN_RMS < avgRms (vadObserve st pcm16))
  ∨ VAD_AUTO_START_CHUNKS ≤ (vadObserve st pcm16).pre_start_chunks

/-- Accumulator after an unbroken sequence of frames none of which started
the conversation. -/
noncomputable def vadRun (frames : List (List ℕ)) : VADState :=
  frames.foldl vadObserve initialVADState

/-! ## Theorems: VAD monotonicity (C4) -/

/-- A frame of four 16-bit samples of value 100: its RMS, 100/32768, is
below the ambient floor VAD_MIN_RMS but above VAD_THRESHOLD. -/
def frame100 : List ℕ := [100, 0, 100, 0, 100, 0, 100, 0]

theorem frameRms_frame100 : frameRms frame100 = 100 / 32768 := by
  rw [frameRms, if_neg (by decide), if_neg (by decide), if_neg (by decide)]
  have h1 : frameTotal frame100 = 10000 := by decide
  have h2 : frameUsed frame100 = 1 := by decide
  rw [h1, h2]
  have h3 : ((10000 : ℤ) : ℝ) / ((1 : ℕ) : ℝ) = 100 ^ 2 := by norm_num
  rw [h3, Real.sqrt_sq (by norm_num : (0 : ℝ) ≤ 100)]

/-- Counterexample to C4 as stated: frame100 has RMS below the ambient
floor VAD_MIN_RMS, yet a session awaiting speech starts the conversation on
it at frame count 1, far below the hard ceiling VAD_AUTO_START_CHUNKS,
because the per-frame speech classification uses the lower VAD_THRESHOLD. -/
theorem vad_ambient_floor_counterexample :
    frameRms frame100 ≤ VAD_MIN_RMS
    ∧ shouldStartConversation initialVADState frame100
    ∧ (vadObserve initialVADState frame100).pre_start_chunks <
        VAD_AUTO_START_CHUNKS := by
  refine ⟨?_, Or.inl ?_, ?_⟩
  · rw [frameRms_frame100, VAD_MIN_RMS]
    norm_num
  · rw [frameRms_frame100, VAD_THRESHOLD]
    norm_num
  · show 0 + 1 < VAD_AUTO_START_CHUNKS
    rw [VAD_AUTO_START_CHUNKS]
    norm_num

theorem vadObserve_foldl (frames : List (List ℕ)) (st : VADState) :
    (frames.foldl vadObserve st).pre_start_chunks
        = st.pre_start_chunks + frames.length
    ∧ (frames.foldl vadObserve st).rms_samples
        = st.rms_samples + frames.length
    ∧ (frames.foldl vadObserve st).rms_accum
        = st.rms_accum + (frames.map frameRms).sum := by
  induction frames generalizing st with
  | nil => simp
  | cons f rest ih =>
    simp only [List.foldl_cons, List.map_cons, List.sum_cons,
      List.length_cons]
    obtain ⟨h1, h2, h3⟩ := ih (vadObserve st f)
    refine ⟨?_, ?_, ?_⟩
    · rw [h1]
      simp only [vadObserve]
      omega
    · rw [h2]
      simp only [vadObserve]
      omega
    · rw [h3]
      simp only [vadObserve]
      ring

/-- Claim C4 (amended): for an unbroken sequence of frames whose RMS values
all stay at or below the speech threshold VAD_THRESHOLD (which is stricter
than the ambient floor VAD_MIN_RMS), a session awaiting speech never starts
the conversation before the frame count reaches VAD_AUTO_START_CHUNKS.
The original claim, with the bound at the ambient floor VAD_MIN_RMS, fails:
a frame with RMS between VAD_THRESHOLD and VAD_MIN_RMS starts at once. -/
theorem vad_below_speech_threshold_no_start (frames : List (List ℕ))
    (f : List ℕ)
    (hall : ∀ g, g ∈ frames → frameRms g ≤ VAD_THRESHOLD)
    (hf : frameRms f ≤ VAD_THRESHOLD)
    (hlen : frames.length + 1 < VAD_AUTO_START_CHUNKS) :
    ¬ shouldStartConversation (vadRun frames) f := by
  obtain ⟨h1, h2, h3⟩ := vadObserve_foldl frames initialVADState
  rw [vadRun]
  intro hstart
  have hsamp : (vadObserve (frames.foldl vadObserve initialVADState) f).rms_samples
      = frames.length + 1 := by
    simp only [vadObserve]
    rw [h2]
    simp [initialVADState]
  have haccum : (vadObserve (frames.foldl vadObserve initialVADState) f).rms_accum
      = (frames.map frameRms).sum + frameRms f := by
    simp only [vadObserve]
    rw [h3]
    simp [initialVADState]
  have hchunks : (vadObserve (frames.foldl vadObserve initialVADState) f).pre_start_chunks
      = frames.length + 1 := by
    simp only [vadObserve]
    rw [h1]
    simp [initialVADState]
  have hsum : (frames.map frameRms).sum
      ≤ (frames.length : ℝ) * VAD_THRESHOLD := by
    have := List.sum_le_card_nsmul (frames.map frameRms) VAD_THRESHOLD
      (by
        intro x hx
        obtain ⟨g, hg, rfl⟩ := List.mem_map.mp hx
        exact hall g hg)
    simpa [nsmul_eq_mul] using this
  rcases hstart with hsp | ⟨hchunks2, havg⟩ | hauto
  · exact absurd hsp (not_lt.mpr hf)
  · have havg2 : avgRms (vadObserve (frames.foldl vadObserve initialVADState) f)
        ≤ VAD_THRESHOLD := by
      rw [avgRms, if_neg (by rw [hsamp]; omega), haccum, hsamp]
      rw [div_le_iff₀ (by positivity)]
      push_cast
      nlinarith [hsum, hf]
    have hlt : VAD_MIN_RMS < VAD_THRESHOLD := lt_of_lt_of_le havg havg2
    rw [VAD_MIN_RMS, VAD_THRESHOLD] at hlt
    norm_num at hlt
  · rw [hchunks] at hauto
    omega

/-- A frame of eight zero bytes: RMS 0. -/
def zeroFrame : List ℕ := [0, 0, 0, 0, 0, 0, 0, 0]

theorem frameRms_zeroFrame : frameRms zeroFrame = 0 := by
  rw [frameRms, if_neg (by decide), if_neg (by decide), if_neg (by decide)]
  have h1 : frameTotal zeroFrame = 0 := by decide
  rw [h1]
  norm_num

/-- Witness for C4 (amended): on the very first all-zero frame the session
does not start the conversation. -/
theorem vad_below_speech_threshold_no_start_witness :
    ¬ shouldStartConversation (vadRun []) zeroFrame :=
  vad_below_speech_threshold_no_start [] zeroFrame (by simp)
    (by rw [frameRms_zeroFrame, VAD_THRESHOLD]; norm_num)
    (by rw [VAD_AUTO_START_CHUNKS]; norm_num)

/-- Witness for C2 (amended) at the concrete hello-there trace. -/
theorem duplicate_utterance_tracked_witness :
    processTurn ⟨"hello there", true, none⟩ helloEvent 1 =
      (⟨"hello there", true, some (pyStrip "hello there", 1)⟩, none)
    ∧ timeoutTick ⟨"hello there", true, some (pyStrip "hello there", 1)⟩ 2 =
      (⟨pyStrip "hello there", true, none⟩, some (pyStrip "hello there")) :=
  duplicate_utterance_tracked_then_reemitted
    ⟨"hello there", true, none⟩ helloEvent 1 2 rfl rfl (by decide) rfl
    (by decide) (by decide) (by decide) (by decide)
    (by norm_num [pending_timeout_seconds])

/-! ## Concurrency between _timeout_checker_loop and _receive_loop (C1)

Both tasks mutate the shared pending/last-sent state.  Under cooperative
(asyncio) scheduling each task's synchronous check-and-clear section is
atomic, and the awaited emit callback with its post-updates forms the
second atomic section; a task is therefore a two-phase program, and any
interleaving of the two tasks is a schedule choosing which task runs its
next atomic phase. -/

/-- Program counter of one task: the timeout checker about to run its
check, the timeout checker about to emit a grabbed text, the receive loop
about to run its synchronous decision for one Turn event, the receive loop
about to emit a decided text, or finished. -/
inductive SttTask where
  | timeoutCheck (now : Time)
  | timeoutEmit (text : String)
  | receiveCheck (e : TurnEvent) (now : Time)
  | receiveEmit (text : String)
  | done
deriving Repr, DecidableEq

/-- Shared state: the per-session STT fields plus the log of emitted
transcripts (callback invocations), in order. -/
structure SttShared where
  stt : STTState
  emitted : List String
deriving Repr, DecidableEq

/-- One atomic phase of a task against the shared state: returns the new
shared state and the task's next program counter. -/
def sttTaskStep (sh : SttShared) : SttTask → SttShared × SttTask
  | .timeoutCheck now =>
    match timeoutGrab sh.stt now with
    | some p =>
      ({ sh with stt := { sh.stt with pending_transcript := none } },
       .timeoutEmit p)
    | none => (sh, .done)
  | .timeoutEmit text =>
    ({ stt := timeoutEmitUpdate sh.stt text,
       emitted := sh.emitted ++ [text] }, .done)
  | .receiveCheck e now =>
    match receiveTurnDecide sh.stt e now with
    | (s1, some txt) => ({ sh with stt := s1 }, .receiveEmit txt)
    | (s1, none) => ({ sh with stt := s1 }, .done)
  | .receiveEmit text =>
    ({ stt := emitUpdate sh.stt text, emitted := sh.emitted ++ [text] },
     .done)
  | .done => (sh, .done)

/-- Run one task to completion (every task finishes within two phases). -/
def sttRunTask (sh : SttShared) (t : SttTask) : SttShared :=
  (sttTaskStep (sttTaskStep sh t).1 (sttTaskStep sh t).2).1

/-- Run the timeout-checker task and the receive-loop task under an
arbitrary interleaving: each schedule entry picks which task executes its
next atomic phase (true = timeout checker); when the schedule is exhausted
the remaining phases run to completion. -/
def sttRunPair : SttShared → SttTask → SttTask → List Bool → SttShared
  | sh, t, r, [] => sttRunTask (sttRunTask sh t) r
  | sh, t, r, b :: sched =>
    if b then
      sttRunPair (sttTaskStep sh t).1 (sttTaskStep sh t).2 r sched
    else
      sttRunPair (sttTaskStep sh r).1 t (sttTaskStep sh r).2 sched

/-! Helper characterizations for the concurrency proof. -/

theorem timeoutGrab_none (s : STTState) (now : Time)
    (hp : s.pending_transcript = none) : timeoutGrab s now = none := by
  simp [timeoutGrab, hp]

theorem trackPending_eot_true (s : STTState) (txt : String) (wc : ℕ)
    (now : Time) : trackPending s txt wc true now = s := by
  simp [trackPending]

theorem receiveTurnChain_eot (s : STTState) (e : TurnEvent) (now : Time)
    (heot : e.end_of_turn = true) :
    receiveTurnChain s e now = (s, none)
    ∨ receiveTurnChain s e now
        = ({ s with pending_transcript := none },
           some (pyStrip (finalTextOf e))) := by
  simp only [receiveTurnChain, heot, if_true]
  split_ifs <;>
    first
      | exact Or.inl (by rw [trackPending_eot_true])
      | exact Or.inr rfl

theorem receiveTurnDecide_eot_none (s : STTState) (e : TurnEvent)
    (now : Time) (hp : s.pending_transcript = none)
    (heot : e.end_of_turn = true) (hne : finalTextOf e ≠ "") :
    receiveTurnDecide s e now = (s, none)
    ∨ receiveTurnDecide s e now
        = ({ s with pending_transcript := none },
           some (pyStrip (finalTextOf e))) := by
  have hg := timeoutGrab_none s now hp
  simp only [receiveTurnDecide, hg]
  rw [if_neg hne]
  exact receiveTurnChain_eot s e now heot

theorem count_append_ne (l : List String) (q p : String) (h : q ≠ p) :
    (l ++ [q]).count p = l.count p := by
  rw [List.count_append]
  have hz : [q].count p = 0 := by
    rw [List.count_eq_zero]
    simp only [List.mem_singleton]
    exact fun hh => h hh.symm
  rw [hz]
  omega

theorem count_append_self (l : List String) (p : String) :
    (l ++ [p]).count p = l.count p + 1 := by
  rw [List.count_append]
  simp

/-- Timeout-checker task is either still at its check or finished. -/
def tOk (now : Time) (t : SttTask) : Prop :=
  t = .timeoutCheck now ∨ t = .done

/-- Receive-loop task is at its check, finished, or about to emit a text
other than the held one. -/
def rOk (p : String) (e : TurnEvent) (now : Time) (r : SttTask) : Prop :=
  r = .receiveCheck e now ∨ r = .done
    ∨ ∃ q, r = .receiveEmit q ∧ q ≠ p

/-- Exactly-once invariant for the held utterance p (stored since t0): the
pending slot still holds p and neither task has run its check, or the slot
is cleared and exactly one of: the timeout checker holds p for emission,
the receive loop holds p for emission, or p has been emitted exactly
once. -/
def sttInv (p : String) (t0 : Time) (e : TurnEvent) (now : Time)
    (sh : SttShared) (t r : SttTask) : Prop :=
  (sh.stt.pending_transcript = some (p, t0) ∧ t = .timeoutCheck now
    ∧ r = .receiveCheck e now ∧ sh.emitted.count p = 0)
  ∨ (sh.stt.pending_transcript = none ∧
      ((t = .timeoutEmit p ∧ rOk p e now r ∧ sh.emitted.count p = 0)
        ∨ (r = .receiveEmit p ∧ tOk now t ∧ sh.emitted.count p = 0)
        ∨ (tOk now t ∧ rOk p e now r ∧ sh.emitted.count p = 1)))

theorem sttInv_stepT (p : String) (t0 : Time) (e : TurnEvent) (now : Time)
    (ht : pending_timeout_seconds ≤ now - t0)
    (sh : SttShared) (t r : SttTask)
    (hinv : sttInv p t0 e now sh t r) :
    sttInv p t0 e now (sttTaskStep sh t).1 (sttTaskStep sh t).2 r := by
  rcases hinv with ⟨hp1, rfl, hr, hc⟩ | ⟨hp1, hcase⟩
  · have hg := timeoutGrab_expired sh.stt now p t0 hp1 ht
    have hstep : sttTaskStep sh (.timeoutCheck now) =
        ({ sh with stt := { sh.stt with pending_transcript := none } },
         .timeoutEmit p) := by
      simp [sttTaskStep, hg]
    rw [hstep]
    exact Or.inr ⟨rfl, Or.inl ⟨rfl, Or.inl hr, hc⟩⟩
  · rcases hcase with ⟨rfl, hr, hc⟩ | ⟨hr, htok, hc⟩ | ⟨htok, hr, hc⟩
    · have hstep : sttTaskStep sh (.timeoutEmit p) =
          ({ stt := timeoutEmitUpdate sh.stt p,
             emitted := sh.emitted ++ [p] }, .done) := by
        simp [sttTaskStep]
      rw [hstep]
      refine Or.inr ⟨?_, Or.inr (Or.inr ⟨Or.inr rfl, hr, ?_⟩)⟩
      · simp [timeoutEmitUpdate, hp1]
      · simp [count_append_self, hc]
    · rcases htok with rfl | rfl
      · have hg := timeoutGrab_none sh.stt now hp1
        have hstep : sttTaskStep sh (.timeoutCheck now) = (sh, .done) := by
          simp [sttTaskStep, hg]
        rw [hstep]
        exact Or.inr ⟨hp1, Or.inr (Or.inl ⟨hr, Or.inr rfl, hc⟩)⟩
      · have hstep : sttTaskStep sh .done = (sh, .done) := by
          simp [sttTaskStep]
        rw [hstep]
        exact Or.inr ⟨hp1, Or.inr (Or.inl ⟨hr, Or.inr rfl, hc⟩)⟩
    · rcases htok with rfl | rfl
      · have hg := timeoutGrab_none sh.stt now hp1
        have hstep : sttTaskStep sh (.timeoutCheck now) = (sh, .done) := by
          simp [sttTaskStep, hg]
        rw [hstep]
        exact Or.inr ⟨hp1, Or.inr (Or.inr ⟨Or.inr rfl, hr, hc⟩)⟩
      · have hstep : sttTaskStep sh .done = (sh, .done) := by
          simp [sttTaskStep]
        rw [hstep]
        exact Or.inr ⟨hp1, Or.inr (Or.inr ⟨Or.inr rfl, hr, hc⟩)⟩

theorem sttInv_stepR (p : String) (t0 : Time) (e : TurnEvent) (now : Time)
    (ht : pending_timeout_seconds ≤ now - t0)
    (heot : e.end_of_turn = true) (hne : finalTextOf e ≠ "")
    (hdiff : pyStrip (finalTextOf e) ≠ p)
    (sh : SttShared) (t r : SttTask)
    (hinv : sttInv p t0 e now sh t r) :
    sttInv p t0 e now (sttTaskStep sh r).1 t (sttTaskStep sh r).2 := by
  rcases hinv with ⟨hp1, rfl, rfl, hc⟩ | ⟨hp1, hcase⟩
  · have hd := receiveTurnDecide_timeout sh.stt e now p t0 hp1 ht hne
    have hstep : sttTaskStep sh (.receiveCheck e now) =
        ({ sh with stt := { sh.stt with pending_transcript := none } },
         .receiveEmit p) := by
      simp [sttTaskStep, hd]
    rw [hstep]
    exact Or.inr ⟨rfl, Or.inr (Or.inl ⟨rfl, Or.inl rfl, hc⟩)⟩
  · rcases hcase with ⟨rfl, hr, hc⟩ | ⟨rfl, htok, hc⟩ | ⟨htok, hr, hc⟩
    · rcases hr with rfl | rfl | ⟨q, rfl, hq⟩
      · rcases receiveTurnDecide_eot_none sh.stt e now hp1 heot hne with
          hd | hd
        · have hstep : sttTaskStep sh (.receiveCheck e now) =
              ({ sh with stt := sh.stt }, .done) := by
            simp [sttTaskStep, hd]
          rw [hstep]
          exact Or.inr ⟨hp1, Or.inl ⟨rfl, Or.inr (Or.inl rfl), hc⟩⟩
        · have hstep : sttTaskStep sh (.receiveCheck e now) =
              ({ sh with
                  stt := { sh.stt with pending_transcript := none } },
               .receiveEmit (pyStrip (finalTextOf e))) := by
            simp [sttTaskStep, hd]
          rw [hstep]
          exact Or.inr ⟨rfl,
            Or.inl ⟨rfl, Or.inr (Or.inr ⟨_, rfl, hdiff⟩), hc⟩⟩
      · have hstep : sttTaskStep sh .done = (sh, .done) := by
          simp [sttTaskStep]
        rw [hstep]
        exact Or.inr ⟨hp1, Or.inl ⟨rfl, Or.inr (Or.inl rfl), hc⟩⟩
      · have hstep : sttTaskStep sh (.receiveEmit q) =
            ({ stt := emitUpdate sh.stt q,
               emitted := sh.emitted ++ [q] }, .done) := by
          simp [sttTaskStep]
        rw [hstep]
        refine Or.inr ⟨?_, Or.inl ⟨rfl, Or.inr (Or.inl rfl), ?_⟩⟩
        · simp [emitUpdate]
        · simp [count_append_ne _ _ _ hq, hc]
    · have hstep : sttTaskStep sh (.receiveEmit p) =
          ({ stt := emitUpdate sh.stt p,
             emitted := sh.emitted ++ [p] }, .done) := by
        simp [sttTaskStep]
      rw [hstep]
      refine Or.inr ⟨?_, Or.inr (Or.inr ⟨htok, Or.inr (Or.inl rfl), ?_⟩)⟩
      · simp [emitUpdate]
      · simp [count_append_self, hc]
    · rcases hr with rfl | rfl | ⟨q, rfl, hq⟩
      · rcases receiveTurnDecide_eot_none sh.stt e now hp1 heot hne with
          hd | hd
        · have hstep : sttTaskStep sh (.receiveCheck e now) =
              ({ sh with stt := sh.stt }, .done) := by
            simp [sttTaskStep, hd]
          rw [hstep]
          exact Or.inr ⟨hp1, Or.inr (Or.inr ⟨htok, Or.inr (Or.inl rfl), hc⟩)⟩
        · have hstep : sttTaskStep sh (.receiveCheck e now) =
              ({ sh with
                  stt := { sh.stt with pending_transcript := none } },
               .receiveEmit (pyStrip (finalTextOf e))) := by
            simp [sttTaskStep, hd]
          rw [hstep]
          exact Or.inr ⟨rfl, Or.inr (Or.inr
            ⟨htok, Or.inr (Or.inr ⟨_, rfl, hdiff⟩), hc⟩)⟩
      · have hstep : sttTaskStep sh .done = (sh, .done) := by
          simp [sttTaskStep]
        rw [hstep]
        exact Or.inr ⟨hp1, Or.inr (Or.inr ⟨htok, Or.inr (Or.inl rfl), hc⟩)⟩
      · have hstep : sttTaskStep sh (.receiveEmit q) =
            ({ stt := emitUpdate sh.stt q,
               emitted := sh.emitted ++ [q] }, .done) := by
          simp [sttTaskStep]
        rw [hstep]
        refine Or.inr ⟨?_,
          Or.inr (Or.inr ⟨htok, Or.inr (Or.inl rfl), ?_⟩)⟩
        · simp [emitUpdate]
        · simp [count_append_ne _ _ _ hq, hc]

theorem sttTask_two_steps_done (sh : SttShared) (t : SttTask) :
    (sttTaskStep (sttTaskStep sh t).1 (sttTaskStep sh t).2).2 = .done := by
  cases t with
  | timeoutCheck now =>
    cases hg : timeoutGrab sh.stt now <;> simp [sttTaskStep, hg]
  | timeoutEmit text => simp [sttTaskStep]
  | receiveCheck e now =>
    rcases hd : receiveTurnDecide sh.stt e now with ⟨s1, o⟩
    cases o <;> simp [sttTaskStep, hd]
  | receiveEmit text => simp [sttTaskStep]
  | done => simp [sttTaskStep]

theorem sttInv_final (p : String) (t0 : Time) (e : TurnEvent) (now : Time)
    (sh : SttShared)
    (hinv : sttInv p t0 e now sh .done .done) :
    sh.emitted.count p = 1 := by
  rcases hinv with ⟨_, hcontra, _, _⟩ | ⟨_, hcase⟩
  · cases hcontra
  · rcases hcase with ⟨hcontra, _, _⟩ | ⟨hcontra, _, _⟩ | ⟨_, _, hc⟩
    · cases hcontra
    · cases hcontra
    · exact hc

theorem sttRunPair_count (p : String) (t0 : Time) (e : TurnEvent)
    (now : Time)
    (ht : pending_timeout_seconds ≤ now - t0)
    (heot : e.end_of_turn = true) (hne : finalTextOf e ≠ "")
    (hdiff : pyStrip (finalTextOf e) ≠ p) :
    ∀ (sched : List Bool) (sh : SttShared) (t r : SttTask),
      sttInv p t0 e now sh t r →
      (sttRunPair sh t r sched).emitted.count p = 1 := by
  intro sched
  induction sched with
  | nil =>
    intro sh t r hinv
    have i1 := sttInv_stepT p t0 e now ht sh t r hinv
    have i2 := sttInv_stepT p t0 e now ht _ _ r i1
    rw [sttTask_two_steps_done sh t] at i2
    have i3 := sttInv_stepR p t0 e now ht heot hne hdiff _ _ r i2
    have i4 := sttInv_stepR p t0 e now ht heot hne hdiff _ _ _ i3
    have hdone := sttTask_two_steps_done
      (sttTaskStep (sttTaskStep sh t).1 (sttTaskStep sh t).2).1 r
    rw [hdone] at i4
    exact sttInv_final p t0 e now _ i4
  | cons b sched ih =>
    intro sh t r hinv
    show (sttRunPair sh t r (b :: sched)).emitted.count p = 1
    rw [sttRunPair]
    split_ifs with hb
    · exact ih _ _ _ (sttInv_stepT p t0 e now ht sh t r hinv)
    · exact ih _ _ _ (sttInv_stepR p t0 e now ht heot hne hdiff sh t r hinv)

/-- Claim C1: if a PendingTranscript's age has crossed the fallback timeout
at the instant a final-boundary Turn event with different (case-folded)
text arrives, then under every interleaving of the timeout-checker task and
the receive loop the held utterance is emitted exactly once, never twice:
both paths clear the pending slot in the same atomic section as their
check, before the awaited emit callback, so exactly one of them grabs
it — whichever path's clear-then-emit executes first. -/
theorem no_double_emission (sched : List Bool) (s : STTState)
    (e : TurnEvent) (now : Time) (p : String) (t0 : Time)
    (hp : s.pending_transcript = some (p, t0))
    (ht : pending_timeout_seconds ≤ now - t0)
    (heot : e.end_of_turn = true)
    (hne : finalTextOf e ≠ "")
    (hdiff : pyLower (pyStrip (finalTextOf e)) ≠ pyLower p) :
    ((sttRunPair ⟨s, []⟩ (.timeoutCheck now) (.receiveCheck e now)
        sched).emitted).count p = 1 := by
  have hdiff2 : pyStrip (finalTextOf e) ≠ p := by
    intro hq
    exact hdiff (by rw [hq])
  exact sttRunPair_count p t0 e now ht heot hne hdiff2 sched ⟨s, []⟩ _ _
    (Or.inl ⟨hp, rfl, rfl, by simp⟩)

/-- Witness for C1 at a concrete race: pending "hold me" since time 0, a
FinalBoundary event with text "different" arriving at time 1, under the
schedule that runs the receive loop's check first. -/
theorem no_double_emission_witness :
    ((sttRunPair ⟨⟨"", true, some ("hold me", 0)⟩, []⟩
        (.timeoutCheck 1) (.receiveCheck ⟨"different", "", true⟩ 1)
        [false, true]).emitted).count "hold me" = 1 :=
  no_double_emission [false, true] ⟨"", true, some ("hold me", 0)⟩
    ⟨"different", "", true⟩ 1 "hold me" 0 rfl
    (by norm_num [pending_timeout_seconds]) rfl (by decide) (by decide)

/-! ## SessionLifecycleController: IntegratedVoiceSession._end_interview

_end_interview runs in several concurrently-triggerable tasks (the stop
handler of the message loop, the end_call tool callback, the duration
watchdog).  Its body is a sequence of atomic segments separated by await
points: the is_active guard, the durable status update (awaited), the
interview_ended message send (awaited), and only then the is_active := False
assignment followed by task cancellation and cleanup.  Two concurrent
invocations are modelled as an arbitrary interleaving of their segment
lists over the shared session state. -/

/-- The atomic segments of _end_interview, in program order. -/
inductive EndStep where
  | guard
  | finalizeStatus
  | sendEnded
  | deactivate
deriving Repr, DecidableEq

/-- Shared session state observed by _end_interview: the is_active flag,
and counters of interview_ended messages sent and durable status
finalizations performed. -/
structure EndState where
  is_active : Bool
  ended_messages : ℕ
  status_writes : ℕ
deriving Repr, DecidableEq

/-- Effect of one atomic segment; the boolean is false when the invocation
returns early (the guard saw an inactive session). -/
def endStepRun (s : EndState) : EndStep → EndState × Bool
  | .guard => (s, s.is_active)
  | .finalizeStatus => ({ s with status_writes := s.status_writes + 1 }, true)
  | .sendEnded => ({ s with ended_messages := s.ended_messages + 1 }, true)
  | .deactivate => ({ s with is_active := false }, true)

/-- The segment sequence of one _end_interview invocation. -/
def endInterviewProgram : List EndStep :=
  [.guard, .finalizeStatus, .sendEnded, .deactivate]

/-- Run one invocation to completion without interleaving. -/
def runEndSeq : EndState → List EndStep → EndState
  | s, [] => s
  | s, step :: rest =>
    let r := endStepRun s step
    if r.2 then runEndSeq r.1 rest else r.1

/-- Run two invocations under a schedule: each schedule entry picks which
invocation executes its next atomic segment (true = first); when the
schedule is exhausted the remaining segments run to completion in order. -/
def runEndPair : EndState → List EndStep → List EndStep → List Bool →
    EndState
  | s, p, q, [] => runEndSeq (runEndSeq s p) q
  | s, p, q, b :: sched =>
    if b then
      match p with
      | [] => runEndPair s [] q sched
      | step :: rest =>
        let r := endStepRun s step
        runEndPair r.1 (if r.2 then rest else []) q sched
    else
      match q with
      | [] => runEndPair s p [] sched
      | step :: rest =>
        let r := endStepRun s step
        runEndPair r.1 p (if r.2 then rest else []) sched

/-! ## Theorems: _end_interview idempotence (C10) -/

/-- Counterexample to C10 as stated: two racing _end_interview invocations
that both pass the is_active guard before either one reaches the
is_active := False assignment (the guard is separated from the assignment
by two await points) each send interview_ended and each finalize the
durable status: two messages and two status writes, not at most one. -/
theorem end_interview_race_double_send :
    (runEndPair ⟨true, 0, 0⟩ endInterviewProgram endInterviewProgram
      [true, false]).ended_messages = 2
    ∧ (runEndPair ⟨true, 0, 0⟩ endInterviewProgram endInterviewProgram
      [true, false]).status_writes = 2 := by
  constructor <;> rfl

/-- Claim C10 (amended): _end_interview is a no-op when the session is
already inactive, so for sequential (non-overlapping) invocations at most
one interview_ended message is sent and the durable status is finalized at
most once: after one complete invocation every further complete invocation
changes nothing.  The guarantee does not extend to invocations that
interleave between the is_active guard and the deactivation. -/
theorem end_interview_sequentially_idempotent (s : EndState) :
    (s.is_active = false → runEndSeq s endInterviewProgram = s)
    ∧ (s.is_active = true →
        EndState.ended_messages
            (runEndSeq (runEndSeq s endInterviewProgram) endInterviewProgram)
          = s.ended_messages + 1
        ∧ EndState.status_writes
            (runEndSeq (runEndSeq s endInterviewProgram) endInterviewProgram)
          = s.status_writes + 1
        ∧ EndState.is_active
            (runEndSeq (runEndSeq s endInterviewProgram) endInterviewProgram)
          = false) := by
  constructor
  · intro h
    simp [runEndSeq, endInterviewProgram, endStepRun, h]
  · intro h
    refine ⟨?_, ?_, ?_⟩ <;>
      simp [runEndSeq, endInterviewProgram, endStepRun, h]

/-- Witness for C10 (amended) at concrete states. -/
theorem end_interview_sequentially_idempotent_witness :
    runEndSeq ⟨false, 3, 5⟩ endInterviewProgram = ⟨false, 3, 5⟩
    ∧ (runEndSeq (runEndSeq ⟨true, 0, 0⟩ endInterviewProgram)
        endInterviewProgram).ended_messages = 0 + 1 :=
  ⟨(end_interview_sequentially_idempotent ⟨false, 3, 5⟩).1 rfl,
   ((end_interview_sequentially_idempotent ⟨true, 0, 0⟩).2 rfl).1⟩

end VoiceCore
